import Mathlib

/-!
Formal model of the chat frontend of the document-embedding platform.

The client code under `frontend/src` is embedded shallowly: JavaScript strings
become `List Char`, fallible or optional values become `Option`, and the React
state updates of the chat interface become explicit functions on the message
list.  Components that live in the Python backend (vector store search, the
health endpoint, the conversation store) are absent from the repository
snapshot; they are modelled from the specification and marked as such.
-/

/-- Characters of a JavaScript string. -/
abbrev JSStr := List Char

/-- `s.split('\n')` of JavaScript, on the character list: the segments
between newline characters.  Always returns at least one (possibly empty)
segment, exactly like the JavaScript method. -/
def splitNl : JSStr → List JSStr
  | [] => [[]]
  | c :: cs =>
    if c = '\n' then [] :: splitNl cs
    else
      match splitNl cs with
      | [] => [[c]]
      | p :: ps => (c :: p) :: ps

/-- Prepend a string onto the first segment of a segment list. -/
def consHead (x : JSStr) : List JSStr → List JSStr
  | [] => [x]
  | h :: t => (x ++ h) :: t

/-- Callback events of `chatService.streamMessage`. -/
inductive SSEEvent where
  | chunkEv (payload : JSStr)
  | completeEv
  | errorEv (message : JSStr)
deriving DecidableEq, Repr

/-- The `'data: '` marker of a server-sent event line (6 characters). -/
def dataMarker : JSStr := ("data: ").toList

/-- The `'[DONE]'` terminator payload. -/
def doneMarker : JSStr := ("[DONE]").toList

/-- The `'Error: '` marker of an error payload (7 characters). -/
def errMarker : JSStr := ("Error: ").toList

/-- The inner `for (const line of lines)` loop of `streamMessage`
(`services/chatApi.ts`): emitted events together with whether a `return`
was executed (a `[DONE]` or `Error:` payload stops all processing). -/
def processLines : List JSStr → List SSEEvent × Bool
  | [] => ([], false)
  | line :: rest =>
    if dataMarker.isPrefixOf line then
      let payload := line.drop 6
      if payload = doneMarker then ([SSEEvent.completeEv], true)
      else if errMarker.isPrefixOf payload then
        ([SSEEvent.errorEv (payload.drop 7)], true)
      else
        let r := processLines rest
        (SSEEvent.chunkEv payload :: r.1, r.2)
    else processLines rest

/-- The `while (true)` reader loop of `streamMessage`: each received text
chunk is appended to the carry-over buffer, the buffer is split on newlines,
the last (possibly incomplete) segment becomes the new buffer, and the
complete lines are processed.  When the stream ends (`done`), the loop
breaks and `onComplete()` fires. -/
def streamLoop : JSStr → List JSStr → List SSEEvent
  | _, [] => [SSEEvent.completeEv]
  | buffer, value :: rest =>
    let parts := splitNl (buffer ++ value)
    let newBuffer := parts.getLastD []
    let lines := parts.dropLast
    let r := processLines lines
    if r.2 then r.1 else r.1 ++ streamLoop newBuffer rest

/-- All callback events `streamMessage` issues for a response body delivered
as the given list of decoded text chunks. -/
def streamMessageEvents (chunks : List JSStr) : List SSEEvent :=
  streamLoop [] chunks

/-- The newline-terminated lines of a response body (the trailing segment
after the last newline is not a complete line). -/
def bodyLines (body : JSStr) : List JSStr := (splitNl body).dropLast

/-- Specification-side line parser, written from the claim: for each line
beginning with `'data: '` take the payload after the marker; `'[DONE]'`
completes and stops, an `'Error: '` payload errors with the remainder and
stops, any other payload is a chunk; other lines trigger no callback. -/
def specLineEvents : List JSStr → List SSEEvent
  | [] => []
  | line :: rest =>
    if dataMarker.isPrefixOf line then
      let payload := line.drop 6
      if payload = doneMarker then [SSEEvent.completeEv]
      else if errMarker.isPrefixOf payload then
        [SSEEvent.errorEv (payload.drop 7)]
      else SSEEvent.chunkEv payload :: specLineEvents rest
    else specLineEvents rest

/-- Whether an event ends the stream (completion or error). -/
def isTerminal : SSEEvent → Bool
  | SSEEvent.chunkEv _ => false
  | SSEEvent.completeEv => true
  | SSEEvent.errorEv _ => true

/-- Specification-side event trace for a whole body: the per-line events,
with the normal end-of-stream completion when no terminal line occurred. -/
def specEvents (body : JSStr) : List SSEEvent :=
  let evs := specLineEvents (bodyLines body)
  if evs.any isTerminal then evs else evs ++ [SSEEvent.completeEv]

/-- Close an event trace: when no terminal event occurred, the end of the
stream completes it. -/
def withFinal (evs : List SSEEvent) : List SSEEvent :=
  if evs.any isTerminal then evs else evs ++ [SSEEvent.completeEv]

/-! Message-list model of `ChatInterface.tsx`. -/

/-- Message roles of the chat data model. -/
inductive Role where
  | user
  | assistant
  | system
deriving DecidableEq, Repr

/-- A chat message as held in the `messages` React state. -/
structure Msg where
  role : Role
  content : JSStr
  timestamp : JSStr
deriving DecidableEq, Repr

/-- The set of characters JavaScript `String.prototype.trim` removes:
WhiteSpace (tab, VT, FF, space, NBSP, BOM, the Unicode space separators)
and LineTerminator (LF, CR, LS, PS). -/
def jsWhitespaceChars : List Char :=
  [' ', '\t', '\n', '\r', '\x0b', '\x0c', ' ', ' ', ' ',
   ' ', ' ', ' ', ' ', ' ', ' ', ' ',
   ' ', ' ', ' ', ' ', ' ', ' ', ' ',
   '　', '﻿']

/-- Whether `trim` strips the character. -/
def jsWhite (c : Char) : Bool := jsWhitespaceChars.contains c

/-- JavaScript `s.trim()`: strip leading and trailing whitespace. -/
def jsTrim (s : JSStr) : JSStr :=
  ((s.dropWhile jsWhite).reverse.dropWhile jsWhite).reverse

/-- The user message `sendMessage` constructs:
`{role: 'user', content: content.trim(), timestamp}`. -/
def mkUserMsg (content ts : JSStr) : Msg :=
  { role := Role.user, content := jsTrim content, timestamp := ts }

/-- The placeholder assistant message appended before streaming starts:
`{role: 'assistant', content: '', timestamp}`. -/
def mkAssistantPlaceholder (ts : JSStr) : Msg :=
  { role := Role.assistant, content := [], timestamp := ts }

/-- `setMessages(prev => [...prev, m])`. -/
def appendMsg (ms : List Msg) (m : Msg) : List Msg := ms ++ [m]

/-- The `onChunk` state update: copy the list and, when it is nonempty and
its last element is an assistant message, replace that element by a copy
whose `content` is the accumulated streamed text. -/
def updateLastAssistant (ms : List Msg) (acc : JSStr) : List Msg :=
  match ms.getLast? with
  | some m =>
    if m.role = Role.assistant then ms.dropLast ++ [{ m with content := acc }]
    else ms
  | none => ms

/-- `setMessages(prev => prev.slice(0, -1))`: drop the last element. -/
def removeLastMsg (ms : List Msg) : List Msg := ms.dropLast

/-- `setMessages(session.messages)` in `loadSession`. -/
def loadSessionMessages (history : List Msg) : List Msg := history

/-- Accumulate streamed chunks into `streamingMessageRef` and apply the
`onChunk` update once per received chunk. -/
def applyStreamChunks : List Msg → JSStr → List JSStr → List Msg
  | ms, _, [] => ms
  | ms, acc, c :: cs =>
    applyStreamChunks (updateLastAssistant ms (acc ++ c)) (acc ++ c) cs

/-- The `messages` state after a streaming turn that fails: the user message
and the placeholder are appended, any number of chunks arrive, then the
`onError` handler removes the last (placeholder) message.  The
session-creation failure branch is the `chunks = []` instance. -/
def streamTurnAfterError (ms0 : List Msg) (content ts1 ts2 : JSStr)
    (chunks : List JSStr) : List Msg :=
  removeLastMsg
    (applyStreamChunks
      (appendMsg (appendMsg ms0 (mkUserMsg content ts1)) (mkAssistantPlaceholder ts2))
      [] chunks)

/-- The `messages` state after a non-streaming turn whose request throws:
the user message was appended before the `try`, and the `catch` branch
appends nothing. -/
def syncTurnAfterError (ms0 : List Msg) (content ts1 : JSStr) : List Msg :=
  appendMsg ms0 (mkUserMsg content ts1)

/-! Request model of `types/chat.ts` and the dispatch sites. -/

/-- Options the chat input panel passes along (`ChatInputOptions`).
Optional numeric fields may be `undefined`. -/
structure ChatInputOptions where
  useRAG : Bool
  stream : Bool
  temperature : Option ℚ
  maxTokens : Option ℕ
  tokenLimit : Option ℕ
  summarizeTargetRatio : Option ℚ
deriving DecidableEq, Repr

/-- The `ChatRequest` interface: `message` is the only required field. -/
structure ChatRequest where
  message : JSStr
  conversation_id : Option JSStr
  user_id : Option JSStr
  use_rag : Option Bool
  stream : Option Bool
  temperature : Option ℚ
  max_tokens : Option ℕ
  token_limit : Option ℕ
  summarize_target_ratio : Option ℚ
deriving DecidableEq, Repr

/-- JSON values appearing in a serialized chat request. -/
inductive JVal where
  | jstr (s : JSStr)
  | jbool (b : Bool)
  | jnum (q : ℚ)
deriving DecidableEq, Repr

/-- An optional field of the serialized body: `JSON.stringify` drops
`undefined` members. -/
def optField {α : Type} (name : String) (f : α → JVal) : Option α → List (String × JVal)
  | none => []
  | some a => [(name, f a)]

/-- The key/value pairs `JSON.stringify` produces for a chat request. -/
def requestFields (r : ChatRequest) : List (String × JVal) :=
  [(("message" : String), JVal.jstr r.message)]
    ++ optField ("conversation_id") JVal.jstr r.conversation_id
    ++ optField ("user_id") JVal.jstr r.user_id
    ++ optField ("use_rag") JVal.jbool r.use_rag
    ++ optField ("stream") JVal.jbool r.stream
    ++ optField ("temperature") JVal.jnum r.temperature
    ++ optField ("max_tokens") (fun n => JVal.jnum n) r.max_tokens
    ++ optField ("token_limit") (fun n => JVal.jnum n) r.token_limit
    ++ optField ("summarize_target_ratio") JVal.jnum r.summarize_target_ratio

/-- The field names `POST /chat/` accepts, per the published request shape. -/
def allowedRequestFields : List String :=
  [("message"), ("conversation_id"), ("user_id"), ("use_rag"), ("stream"),
   ("temperature"), ("max_tokens"), ("token_limit"), ("summarize_target_ratio")]

/-- JavaScript `x || undefined` on an optional string: `null` and the empty
string both collapse to `undefined`. -/
def jsOrUndefined (s : Option JSStr) : Option JSStr :=
  match s with
  | some v => if v = [] then none else some v
  | none => none

/-- The request object built in the streaming branch of `sendMessage`
(`ChatInterface.tsx`): every field of the shape, `stream: true`. -/
def buildStreamRequest (content : JSStr) (o : ChatInputOptions)
    (sessionId userId : JSStr) : ChatRequest :=
  { message := jsTrim content
    conversation_id := some sessionId
    user_id := some userId
    use_rag := some o.useRAG
    stream := some true
    temperature := o.temperature
    max_tokens := o.maxTokens
    token_limit := o.tokenLimit
    summarize_target_ratio := o.summarizeTargetRatio }

/-- The request object built in the non-streaming branch of `sendMessage`:
no `stream` member, `conversation_id: currentSessionId || undefined`. -/
def buildSyncRequest (content : JSStr) (o : ChatInputOptions)
    (currentSessionId : Option JSStr) (userId : JSStr) : ChatRequest :=
  { message := jsTrim content
    conversation_id := jsOrUndefined currentSessionId
    user_id := some userId
    use_rag := some o.useRAG
    stream := none
    temperature := o.temperature
    max_tokens := o.maxTokens
    token_limit := o.tokenLimit
    summarize_target_ratio := o.summarizeTargetRatio }

/-- `const streamRequest = { ...request, stream: true }` in
`chatService.streamMessage`. -/
def streamRequestOf (r : ChatRequest) : ChatRequest := { r with stream := some true }

/-- `handleSubmit` of `ChatInput.tsx`: dispatch `message.trim()` only when
the trimmed text is truthy (nonempty) and the input is neither disabled nor
loading. -/
def handleSubmit (message : JSStr) (disabled isLoading : Bool) : Option JSStr :=
  if jsTrim message ≠ [] ∧ disabled = false ∧ isLoading = false then
    some (jsTrim message)
  else none

/-- `sendMessage` of `ChatInterface.tsx`, reduced to the request it issues:
the early return on blank input, then the streaming or non-streaming
request construction (`streamMessage` re-spreads `stream: true`). -/
def sendMessageRequest (content : JSStr) (o : ChatInputOptions)
    (sessionId : JSStr) (currentSessionId : Option JSStr) (userId : JSStr) :
    Option ChatRequest :=
  if jsTrim content = [] then none
  else
    some
      (if o.stream then streamRequestOf (buildStreamRequest content o sessionId userId)
       else buildSyncRequest content o currentSessionId userId)

/-- The request the client dispatches for raw textarea input: the chat-input
guard composed with `sendMessage`. -/
def dispatchedRequest (input : JSStr) (disabled isLoading : Bool)
    (o : ChatInputOptions) (sessionId : JSStr) (currentSessionId : Option JSStr)
    (userId : JSStr) : Option ChatRequest :=
  (handleSubmit input disabled isLoading).bind
    (fun content => sendMessageRequest content o sessionId currentSessionId userId)

/-! Model of `utils/renderUtils.ts`. -/

/-- JavaScript values as far as `typeof` distinguishes them.  A number
carries its `String(...)` rendering, since the renderer never computes with
the numeric value itself. -/
inductive JSValue where
  | vNull
  | vUndefined
  | vString (s : JSStr)
  | vNumber (rendered : JSStr)
  | vBool (b : Bool)
  | vObject
  | vArray
  | vFunction
deriving DecidableEq, Repr

/-- The result of the `typeof` operator (`typeof null` is `'object'`,
an array is an `'object'` too). -/
def typeofTag : JSValue → JSStr
  | JSValue.vNull => ("object").toList
  | JSValue.vUndefined => ("undefined").toList
  | JSValue.vString _ => ("string").toList
  | JSValue.vNumber _ => ("number").toList
  | JSValue.vBool _ => ("boolean").toList
  | JSValue.vObject => ("object").toList
  | JSValue.vArray => ("object").toList
  | JSValue.vFunction => ("function").toList

/-- `String(value)`.  Only the primitive cases are exercised by the claims;
the remaining renderings are irrelevant placeholders. -/
def jsString : JSValue → JSStr
  | JSValue.vNull => ("null").toList
  | JSValue.vUndefined => ("undefined").toList
  | JSValue.vString s => s
  | JSValue.vNumber rendered => rendered
  | JSValue.vBool b => if b then ("true").toList else ("false").toList
  | JSValue.vObject => ("[object Object]").toList
  | JSValue.vArray => []
  | JSValue.vFunction => ("function () \x7b\x7d").toList

/-- `safeRenderWithFallback` from `renderUtils.ts`: fallback for `null` and
`undefined`, `String(value)` for the three renderable primitive types,
fallback otherwise.  Total by construction, so it never throws. -/
def safeRenderWithFallback (value : JSValue) (fallback : JSStr) : JSStr :=
  if value = JSValue.vNull ∨ value = JSValue.vUndefined then fallback
  else if typeofTag value = ("string").toList ∨ typeofTag value = ("number").toList
      ∨ typeofTag value = ("boolean").toList then
    jsString value
  else fallback

/-- Whether a value is a string, number, or boolean. -/
def isRenderablePrim : JSValue → Bool
  | JSValue.vString _ => true
  | JSValue.vNumber _ => true
  | JSValue.vBool _ => true
  | _ => false

/-! Health endpoint model.  The `/chat/health` handler itself is backend
code absent from the repository snapshot; it is modelled from the spec. -/

/-- The health object `chatService.checkHealth` consumes:
`{status, missing_components[], chat_model?, embedder?, vector_db?}`. -/
structure HealthResponse where
  status : JSStr
  missing_components : List JSStr
  chat_model : Option JSStr
  embedder : Option JSStr
  vector_db : Option JSStr
deriving DecidableEq, Repr

/-- The two generation strategies of the hybrid orchestrator. -/
inductive PipelineStrategy where
  | full
  | baseline
deriving DecidableEq, Repr

/-- Modelled from the spec: the configured backend components (chat model,
embedder, vector store), each present or missing; the `/chat/health`
handler that reports them is not part of the snapshot. -/
structure PipelineComponents where
  chat_model : Option JSStr
  embedder : Option JSStr
  vector_db : Option JSStr
deriving DecidableEq, Repr

/-- Modelled from the spec: the `missing_components` list of the health
report, one entry per unconfigured component. -/
def missingComponents (p : PipelineComponents) : List JSStr :=
  (if p.chat_model.isNone then [("chat_model").toList] else [])
    ++ (if p.embedder.isNone then [("embedder").toList] else [])
    ++ (if p.vector_db.isNone then [("vector_db").toList] else [])

/-- Modelled from the spec: the full pipeline is constructed exactly when
every component initializes; otherwise the baseline pipeline is selected. -/
def activeStrategy (p : PipelineComponents) : PipelineStrategy :=
  if missingComponents p = [] then PipelineStrategy.full
  else PipelineStrategy.baseline

/-- Modelled from the spec: the `GET /chat/health` response,
`status: ready|not_ready` with the missing components and the configured
component descriptions. -/
def healthResponseOf (p : PipelineComponents) : HealthResponse :=
  { status := if missingComponents p = [] then ("ready").toList else ("not_ready").toList
    missing_components := missingComponents p
    chat_model := p.chat_model
    embedder := p.embedder
    vector_db := p.vector_db }

/-- How a reader of the health response determines the active strategy:
`ready` means the full pipeline, anything else the baseline. -/
def strategyFromHealth (h : HealthResponse) : PipelineStrategy :=
  if h.status = ("ready").toList then PipelineStrategy.full
  else PipelineStrategy.baseline

/-! Conversation-store model.  `DELETE /chat/conversations/{id}` is served
by backend code absent from the snapshot; modelled from the spec. -/

/-- A stored conversation (the fields relevant to deletion). -/
structure Conversation where
  conversation_id : JSStr
  title : JSStr
  messages : List Msg
deriving DecidableEq, Repr

/-- Observable outcome of a delete call. -/
inductive DeleteOutcome where
  | deleted
  | notFound
deriving DecidableEq, Repr

/-- Modelled from the spec: `delete(conversation_id)` on the conversation
store removes the conversation when present and reports `notFound` (rather
than crashing) when the id is unknown. -/
def deleteConversation (store : List Conversation) (cid : JSStr) :
    List Conversation × DeleteOutcome :=
  if store.any (fun c => c.conversation_id == cid) then
    (store.filter (fun c => !(c.conversation_id == cid)), DeleteOutcome.deleted)
  else (store, DeleteOutcome.notFound)

/-! Vector-store search model.  The `VectorStore` backends are backend code
absent from the snapshot; modelled from the spec (§4.2). -/

/-- A search hit: `{chunk_id, document_id, content, score, metadata}`. -/
structure SearchResult where
  chunk_id : JSStr
  document_id : JSStr
  content : JSStr
  score : ℚ
  metadata : List (JSStr × JSStr)
deriving DecidableEq, Repr

/-- A stored chunk with its embedding. -/
structure VSEntry where
  chunk_id : JSStr
  document_id : JSStr
  content : JSStr
  embedding : List ℚ
  metadata : List (JSStr × JSStr)
deriving DecidableEq, Repr

/-- The result ordering of the spec: descending score, ties broken by
`chunk_id` ascending. -/
def resultRank (a b : SearchResult) : Prop :=
  b.score < a.score ∨ (a.score = b.score ∧ a.chunk_id ≤ b.chunk_id)

instance : DecidableRel resultRank := fun a b => by
  unfold resultRank; exact inferInstance

instance : IsTotal SearchResult resultRank where
  total a b := by
    unfold resultRank
    rcases lt_trichotomy a.score b.score with h | h | h
    · exact Or.inr (Or.inl h)
    · rcases le_total a.chunk_id b.chunk_id with h2 | h2
      · exact Or.inl (Or.inr ⟨h, h2⟩)
      · exact Or.inr (Or.inr ⟨h.symm, h2⟩)
    · exact Or.inl (Or.inl h)

instance : IsTrans SearchResult resultRank where
  trans a b c hab hbc := by
    unfold resultRank at *
    rcases hab with h1 | ⟨h1, h1c⟩
    · rcases hbc with h2 | ⟨h2, _⟩
      · exact Or.inl (h2.trans h1)
      · exact Or.inl (h2 ▸ h1)
    · rcases hbc with h2 | ⟨h2, h2c⟩
      · exact Or.inl (h1 ▸ h2)
      · exact Or.inr ⟨h1.trans h2, h1c.trans h2c⟩

/-- Clamp a rational into the unit interval. -/
def clamp01 (x : ℚ) : ℚ := max 0 (min 1 x)

/-- Modelled from the spec: `search(query_embedding, topK, threshold)` of a
`VectorStore` backend.  `rawScore` is the backend's native metric and
`toUnit` its backend-specific conversion toward the unified scale (the spec
leaves both open, §9); the store clamps into `[0,1]`, filters by the
threshold after normalization, sorts descending with the deterministic tie
break, and returns the first `topK` hits. -/
def vsSearch (rawScore : List ℚ → List ℚ → ℚ) (toUnit : ℚ → ℚ)
    (entries : List VSEntry) (queryEmbedding : List ℚ) (topK : ℕ)
    (threshold : ℚ) : List SearchResult :=
  let scored := entries.map (fun e =>
    { chunk_id := e.chunk_id
      document_id := e.document_id
      content := e.content
      score := clamp01 (toUnit (rawScore queryEmbedding e.embedding))
      metadata := e.metadata : SearchResult })
  let kept := scored.filter (fun r => threshold ≤ r.score)
  (kept.insertionSort resultRank).take topK

/-! Helper lemmas about newline splitting. -/

theorem splitNl_ne_nil (s : JSStr) : splitNl s ≠ [] := by
  match s with
  | [] => simp [splitNl]
  | c :: cs =>
    by_cases hc : c = '\n'
    · simp [splitNl, hc]
    · cases hP : splitNl cs with
      | nil => exact absurd hP (splitNl_ne_nil cs)
      | cons p ps => simp [splitNl, hc, hP]

theorem getLastD_irrel {α : Type} : ∀ (l : List α), l ≠ [] → ∀ d d' : α,
    l.getLastD d = l.getLastD d'
  | [], h, _, _ => absurd rfl h
  | [x], _, d, d' => rfl
  | x :: y :: t, _, d, d' => by
    rw [List.getLastD_cons d x (y :: t), List.getLastD_cons d' x (y :: t)]

theorem consHead_ne_nil (x : JSStr) (l : List JSStr) : consHead x l ≠ [] := by
  cases l <;> simp [consHead]

theorem getLastD_single {α : Type} (x d : α) : ([x]).getLastD d = x := by
  rw [List.getLastD_cons]
  rfl

theorem splitNl_cons_nl (cs : JSStr) : splitNl ('\n' :: cs) = [] :: splitNl cs := by
  simp [splitNl]

theorem splitNl_cons_ne (c : Char) (cs : JSStr) (hc : ¬ c = '\n') (p : JSStr)
    (ps : List JSStr) (hP : splitNl cs = p :: ps) :
    splitNl (c :: cs) = (c :: p) :: ps := by
  simp [splitNl, hc, hP]

theorem splitNl_append (a b : JSStr) :
    splitNl (a ++ b)
      = (splitNl a).dropLast ++ consHead ((splitNl a).getLastD []) (splitNl b) := by
  match a with
  | [] =>
    cases hb : splitNl b with
    | nil => exact absurd hb (splitNl_ne_nil b)
    | cons h t => simp [splitNl, consHead, hb, getLastD_single]
  | c :: cs =>
    cases hP : splitNl cs with
    | nil => exact absurd hP (splitNl_ne_nil cs)
    | cons p ps =>
      have ih := splitNl_append cs b
      rw [hP] at ih
      by_cases hc : c = '\n'
      · subst hc
        rw [List.cons_append, splitNl_cons_nl, splitNl_cons_nl, hP, ih]
        simp [List.getLastD_cons]
      · cases ps with
        | nil =>
          cases hQ : splitNl b with
          | nil => exact absurd hQ (splitNl_ne_nil b)
          | cons q t =>
            have ih2 : splitNl (cs ++ b) = (p ++ q) :: t := by
              simpa [consHead, getLastD_single, hQ] using ih
            rw [List.cons_append, splitNl_cons_ne c (cs ++ b) hc (p ++ q) t ih2,
              splitNl_cons_ne c cs hc p [] hP]
            simp [consHead, getLastD_single, hQ]
        | cons p1 ps1 =>
          have ih2 : splitNl (cs ++ b)
              = p :: ((p1 :: ps1).dropLast
                  ++ consHead ((p1 :: ps1).getLastD []) (splitNl b)) := by
            rw [ih, List.getLastD_cons,
              getLastD_irrel (p1 :: ps1) (List.cons_ne_nil p1 ps1) p []]
            rfl
          have e2 : ((c :: p) :: p1 :: ps1).getLastD ([] : JSStr)
              = (p1 :: ps1).getLastD [] := by
            rw [List.getLastD_cons]
            exact getLastD_irrel (p1 :: ps1) (List.cons_ne_nil p1 ps1) (c :: p) []
          rw [List.cons_append, splitNl_cons_ne c (cs ++ b) hc _ _ ih2,
            splitNl_cons_ne c cs hc p (p1 :: ps1) hP, e2]
          rfl

theorem nl_not_mem_lastPart (s : JSStr) : '\n' ∉ (splitNl s).getLastD [] := by
  match s with
  | [] => simp [splitNl, getLastD_single]
  | c :: cs =>
    have ih := nl_not_mem_lastPart cs
    cases hP : splitNl cs with
    | nil => exact absurd hP (splitNl_ne_nil cs)
    | cons p ps =>
      rw [hP] at ih
      by_cases hc : c = '\n'
      · subst hc
        rw [splitNl_cons_nl, hP, List.getLastD_cons]
        exact ih
      · rw [splitNl_cons_ne c cs hc p ps hP]
        cases ps with
        | nil =>
          rw [getLastD_single]
          rw [getLastD_single] at ih
          intro hm
          rcases List.mem_cons.mp hm with h | h
          · exact hc h.symm
          · exact ih h
        | cons p1 ps1 =>
          rw [List.getLastD_cons,
            getLastD_irrel (p1 :: ps1) (List.cons_ne_nil p1 ps1) (c :: p) []]
          rw [List.getLastD_cons,
            getLastD_irrel (p1 :: ps1) (List.cons_ne_nil p1 ps1) p []] at ih
          exact ih

theorem splitNl_of_no_nl (s : JSStr) (h : '\n' ∉ s) : splitNl s = [s] := by
  match s with
  | [] => rfl
  | c :: cs =>
    have hc : ¬ c = '\n' := by
      intro he
      exact h (he ▸ List.mem_cons_self c cs)
    have ih := splitNl_of_no_nl cs (fun hm => h (List.mem_cons_of_mem c hm))
    simp [splitNl, hc, ih]

/-! Relating the client loop to the specification-side line parser. -/

theorem processLines_eq (L : List JSStr) :
    processLines L = (specLineEvents L, (specLineEvents L).any isTerminal) := by
  match L with
  | [] => rfl
  | line :: rest =>
    have ih := processLines_eq rest
    by_cases h1 : dataMarker.isPrefixOf line
    · by_cases h2 : line.drop 6 = doneMarker
      · simp [processLines, specLineEvents, h1, h2, isTerminal]
      · by_cases h3 : errMarker.isPrefixOf (line.drop 6)
        · simp [processLines, specLineEvents, h1, h2, h3, isTerminal]
        · simp [processLines, specLineEvents, h1, h2, h3, isTerminal, ih]
    · simp [processLines, specLineEvents, h1, ih]

theorem specLineEvents_append (L1 L2 : List JSStr) :
    specLineEvents (L1 ++ L2)
      = if (specLineEvents L1).any isTerminal then specLineEvents L1
        else specLineEvents L1 ++ specLineEvents L2 := by
  match L1 with
  | [] => simp [specLineEvents]
  | line :: rest =>
    have ih := specLineEvents_append rest L2
    by_cases h1 : dataMarker.isPrefixOf line
    · by_cases h2 : line.drop 6 = doneMarker
      · simp [specLineEvents, h1, h2, isTerminal]
      · by_cases h3 : errMarker.isPrefixOf (line.drop 6)
        · simp [specLineEvents, h1, h2, h3, isTerminal]
        · by_cases h4 : (specLineEvents rest).any isTerminal
          · simp [specLineEvents, h1, h2, h3, isTerminal, ih, h4]
          · simp [specLineEvents, h1, h2, h3, isTerminal, ih, h4]
    · simp [specLineEvents, h1, ih]

theorem specEvents_def (body : JSStr) :
    specEvents body = withFinal (specLineEvents (bodyLines body)) := rfl

theorem withFinal_of_terminal (E : List SSEEvent) (h : E.any isTerminal = true) :
    withFinal E = E := by
  unfold withFinal
  rw [if_pos h]

theorem withFinal_append (E1 E2 : List SSEEvent) (h : E1.any isTerminal = false) :
    withFinal (E1 ++ E2) = E1 ++ withFinal E2 := by
  unfold withFinal
  rw [List.any_append, h]
  cases h2 : E2.any isTerminal
  · simp [List.append_assoc]
  · simp

theorem streamLoop_spec : ∀ (chunks : List JSStr) (buffer : JSStr), '\n' ∉ buffer →
    streamLoop buffer chunks = specEvents (buffer ++ chunks.flatten)
  | [], buffer, h => by
    simp [streamLoop, specEvents, bodyLines, splitNl_of_no_nl buffer h, specLineEvents]
  | value :: rest, buffer, h => by
    have hb2 : '\n' ∉ (splitNl (buffer ++ value)).getLastD [] :=
      nl_not_mem_lastPart (buffer ++ value)
    have ih := streamLoop_spec rest ((splitNl (buffer ++ value)).getLastD []) hb2
    have hbody : bodyLines ((buffer ++ value) ++ rest.flatten)
        = (splitNl (buffer ++ value)).dropLast
          ++ bodyLines ((splitNl (buffer ++ value)).getLastD [] ++ rest.flatten) := by
      unfold bodyLines
      rw [splitNl_append (buffer ++ value) rest.flatten,
        splitNl_append ((splitNl (buffer ++ value)).getLastD []) rest.flatten,
        splitNl_of_no_nl _ hb2, getLastD_single]
      rw [List.dropLast_append_of_ne_nil _ (consHead_ne_nil _ _)]
      simp [consHead]
    have hflat : buffer ++ (value :: rest).flatten
        = (buffer ++ value) ++ rest.flatten := by
      simp [List.flatten_cons]
    rw [hflat]
    show (let parts := splitNl (buffer ++ value)
          let newBuffer := parts.getLastD []
          let lines := parts.dropLast
          let r := processLines lines
          if r.2 then r.1 else r.1 ++ streamLoop newBuffer rest)
        = specEvents ((buffer ++ value) ++ rest.flatten)
    simp only [processLines_eq]
    rw [specEvents_def, hbody, specLineEvents_append]
    cases ht : (specLineEvents ((splitNl (buffer ++ value)).dropLast)).any isTerminal
    · have e2 : ∀ (A B : List SSEEvent), (if false = true then A else B) = B :=
        fun A B => if_neg Bool.false_ne_true
      rw [e2, e2, ih, specEvents_def]
      exact (withFinal_append _ _ ht).symm
    · have e1 : ∀ (A B : List SSEEvent), (if true = true then A else B) = A :=
        fun A B => if_pos rfl
      rw [e1, e1, withFinal_of_terminal _ ht]

theorem specLineEvents_terminal_structure (L : List JSStr) :
    ((specLineEvents L).any isTerminal = false
      ∧ (specLineEvents L).countP isTerminal = 0)
    ∨ ((specLineEvents L).any isTerminal = true
      ∧ (specLineEvents L).countP isTerminal = 1
      ∧ isTerminal ((specLineEvents L).getLastD SSEEvent.completeEv) = true) := by
  match L with
  | [] => left; simp [specLineEvents]
  | line :: rest =>
    have ih := specLineEvents_terminal_structure rest
    by_cases h1 : dataMarker.isPrefixOf line
    · by_cases h2 : line.drop 6 = doneMarker
      · right
        have e : specLineEvents (line :: rest) = [SSEEvent.completeEv] := by
          simp [specLineEvents, h1, h2]
        rw [e]
        refine ⟨rfl, rfl, rfl⟩
      · by_cases h3 : errMarker.isPrefixOf (line.drop 6)
        · right
          have e : specLineEvents (line :: rest)
              = [SSEEvent.errorEv ((line.drop 6).drop 7)] := by
            simp [specLineEvents, h1, h2, h3]
          rw [e]
          refine ⟨rfl, rfl, rfl⟩
        · have e : specLineEvents (line :: rest)
              = SSEEvent.chunkEv (line.drop 6) :: specLineEvents rest := by
            simp [specLineEvents, h1, h2, h3]
          rcases ih with ⟨ha, hc⟩ | ⟨ha, hc, hl⟩
          · left
            rw [e]
            constructor
            · simp [List.any_cons, isTerminal, ha]
            · simp [List.countP_cons, isTerminal, hc]
          · right
            have hne : specLineEvents rest ≠ [] := by
              intro hnil
              rw [hnil] at ha
              simp [List.any_nil] at ha
            rw [e]
            refine ⟨?_, ?_, ?_⟩
            · simp [List.any_cons, isTerminal, ha]
            · simp [List.countP_cons, isTerminal, hc]
            · rw [List.getLastD_cons,
                getLastD_irrel _ hne (SSEEvent.chunkEv (line.drop 6)) SSEEvent.completeEv]
              exact hl
    · have e : specLineEvents (line :: rest) = specLineEvents rest := by
        simp [specLineEvents, h1]
      rw [e]
      exact ih

theorem specEvents_terminal (body : JSStr) :
    (specEvents body).countP isTerminal = 1
    ∧ isTerminal ((specEvents body).getLastD SSEEvent.completeEv) = true := by
  rw [specEvents_def]
  unfold withFinal
  rcases specLineEvents_terminal_structure (bodyLines body) with ⟨ha, hc⟩ | ⟨ha, hc, hl⟩
  · rw [ha]
    have e2 : ∀ (A B : List SSEEvent), (if false = true then A else B) = B :=
      fun A B => if_neg Bool.false_ne_true
    rw [e2]
    constructor
    · rw [List.countP_append isTerminal _ _, hc]
      rfl
    · rw [List.getLastD_concat]
      rfl
  · rw [ha]
    have e1 : ∀ (A B : List SSEEvent), (if true = true then A else B) = A :=
      fun A B => if_pos rfl
    rw [e1]
    exact ⟨hc, hl⟩

/-- C1: the streaming client parses the response body into newline-delimited
lines; every `data: `-marked line's payload is forwarded as a chunk unless it
is `[DONE]` (completion, exactly once, processing stops) or starts with
`Error: ` (error with the remainder, exactly once, processing stops), and
lines without the marker trigger no callback.  The callback trace equals the
specification-side trace on the concatenated body regardless of how the body
is split into chunks, exactly one terminal callback fires, and it fires
last. -/
theorem c1_stream_parser_events (chunks : List JSStr) :
    streamMessageEvents chunks = specEvents chunks.flatten
    ∧ (streamMessageEvents chunks).countP isTerminal = 1
    ∧ isTerminal ((streamMessageEvents chunks).getLastD SSEEvent.completeEv) = true := by
  have he : streamMessageEvents chunks = specEvents chunks.flatten := by
    unfold streamMessageEvents
    exact streamLoop_spec chunks [] (by simp)
  refine ⟨he, ?_, ?_⟩ <;> rw [he]
  · exact (specEvents_terminal chunks.flatten).1
  · exact (specEvents_terminal chunks.flatten).2

/-! Message-list lemmas. -/

theorem updateLastAssistant_concat (ms : List Msg) (a : Msg) (acc : JSStr) :
    updateLastAssistant (ms ++ [a]) acc
      = ms ++ [if a.role = Role.assistant then { a with content := acc } else a] := by
  unfold updateLastAssistant
  rw [List.getLast?_concat]
  show (if a.role = Role.assistant
      then (ms ++ [a]).dropLast ++ [{ a with content := acc }] else ms ++ [a])
    = ms ++ [if a.role = Role.assistant then { a with content := acc } else a]
  by_cases h : a.role = Role.assistant
  · rw [if_pos h, if_pos h, List.dropLast_concat]
  · rw [if_neg h, if_neg h]

theorem applyStreamChunks_concat :
    ∀ (chunks : List JSStr) (ms : List Msg) (a : Msg) (acc : JSStr),
      a.role = Role.assistant →
      ∃ b : Msg, applyStreamChunks (ms ++ [a]) acc chunks = ms ++ [b]
        ∧ b.role = Role.assistant
  | [], _, a, _, h => ⟨a, rfl, h⟩
  | c :: cs, ms, a, acc, h => by
    show (∃ b, applyStreamChunks (updateLastAssistant (ms ++ [a]) (acc ++ c))
        (acc ++ c) cs = ms ++ [b] ∧ b.role = Role.assistant)
    rw [updateLastAssistant_concat ms a (acc ++ c), if_pos h]
    exact applyStreamChunks_concat cs ms { a with content := acc ++ c } (acc ++ c) h

/-- C2: a failed chat turn leaves the conversation with the user message
appended and no assistant message: the streaming error handler removes the
placeholder assistant message (even after interim chunks updated it), and
the non-streaming catch branch never appends an assistant message. -/
theorem c2_failed_turn_keeps_no_assistant (ms0 : List Msg)
    (content ts1 ts2 : JSStr) (chunks : List JSStr) :
    streamTurnAfterError ms0 content ts1 ts2 chunks
      = ms0 ++ [mkUserMsg content ts1]
    ∧ syncTurnAfterError ms0 content ts1 = ms0 ++ [mkUserMsg content ts1] := by
  constructor
  · unfold streamTurnAfterError appendMsg removeLastMsg
    obtain ⟨b, hb, _⟩ := applyStreamChunks_concat chunks
      (ms0 ++ [mkUserMsg content ts1]) (mkAssistantPlaceholder ts2) [] rfl
    rw [hb, List.dropLast_concat]
  · rfl

/-- C7: every mutation the chat interface performs on the message list is an
append at the end, a content update of the last (assistant) message, a
removal of only the last message, or a wholesale replacement with a loaded
history; messages already in the list keep their positions (hence their
relative order) under the first three. -/
theorem c7_mutations_preserve_order (ms : List Msg) (m : Msg) (acc : JSStr)
    (history : List Msg) :
    appendMsg ms m = ms ++ [m]
    ∧ (∀ i : ℕ, i < ms.length → (appendMsg ms m)[i]? = ms[i]?)
    ∧ (updateLastAssistant ms acc).dropLast = ms.dropLast
    ∧ (updateLastAssistant ms acc).length = ms.length
    ∧ (updateLastAssistant ms acc).getLast?.map Msg.role = ms.getLast?.map Msg.role
    ∧ (∀ i : ℕ, i + 1 < ms.length → (updateLastAssistant ms acc)[i]? = ms[i]?)
    ∧ removeLastMsg ms = ms.dropLast
    ∧ (∀ i : ℕ, i + 1 < ms.length → (removeLastMsg ms)[i]? = ms[i]?)
    ∧ loadSessionMessages history = history := by
  have hdrop : ∀ i : ℕ, i + 1 < ms.length → (ms.dropLast)[i]? = ms[i]? := by
    intro i hi
    rw [List.dropLast_eq_take, List.getElem?_take, if_pos (by omega)]
  rcases Decidable.em (ms = []) with hnil | hne
  · subst hnil
    refine ⟨rfl, ?_, rfl, rfl, rfl, ?_, rfl, ?_, rfl⟩ <;> intro i hi <;> simp at hi
  · obtain ⟨ms1, a, rfl⟩ : ∃ ms1 a, ms = ms1 ++ [a] :=
      ⟨ms.dropLast, ms.getLast hne, (List.dropLast_append_getLast hne).symm⟩
    rw [updateLastAssistant_concat ms1 a acc]
    refine ⟨rfl, ?_, ?_, ?_, ?_, ?_, rfl, fun i hi => hdrop i hi, rfl⟩
    · intro i hi
      unfold appendMsg
      rw [List.getElem?_append_left hi]
    · rw [List.dropLast_concat, List.dropLast_concat]
    · simp [List.length_append]
    · rw [List.getLast?_concat, List.getLast?_concat]
      by_cases h : a.role = Role.assistant <;> simp [h]
    · intro i hi
      simp only [List.length_append, List.length_cons, List.length_nil] at hi
      rw [List.getElem?_append_left (by omega), List.getElem?_append_left (by omega)]

/-- Witness for C7 at a concrete two-message list. -/
theorem c7_mutations_preserve_order_witness :
    (appendMsg [⟨Role.user, [], []⟩, ⟨Role.assistant, [], []⟩] ⟨Role.user, [], []⟩)[0]?
        = ([⟨Role.user, [], []⟩, ⟨Role.assistant, [], []⟩] : List Msg)[0]?
    ∧ (updateLastAssistant [⟨Role.user, [], []⟩, ⟨Role.assistant, [], []⟩]
        (("hi").toList))[0]?
        = ([⟨Role.user, [], []⟩, ⟨Role.assistant, [], []⟩] : List Msg)[0]?
    ∧ (removeLastMsg [⟨Role.user, [], []⟩, ⟨Role.assistant, [], []⟩])[0]?
        = ([⟨Role.user, [], []⟩, ⟨Role.assistant, [], []⟩] : List Msg)[0]? := by
  have h := c7_mutations_preserve_order
    [⟨Role.user, [], []⟩, ⟨Role.assistant, [], []⟩] ⟨Role.user, [], []⟩
    (("hi").toList) []
  exact ⟨h.2.1 0 (by decide), h.2.2.2.2.2.1 0 (by decide),
    h.2.2.2.2.2.2.2.1 0 (by decide)⟩

/-! Request-shape lemmas. -/

theorem optField_names_allowed {α : Type} (name : String) (f : α → JVal)
    (x : Option α) (h : name ∈ allowedRequestFields) :
    (optField name f x).all (fun kv => allowedRequestFields.contains kv.1) = true := by
  cases x <;> simp [optField, h]

theorem requestFields_names_allowed (r : ChatRequest) :
    (requestFields r).all (fun kv => allowedRequestFields.contains kv.1) = true := by
  unfold requestFields
  simp only [List.all_append, Bool.and_eq_true]
  refine ⟨⟨⟨⟨⟨⟨⟨⟨?_, ?_⟩, ?_⟩, ?_⟩, ?_⟩, ?_⟩, ?_⟩, ?_⟩, ?_⟩
  · have h : ("message" : String) ∈ allowedRequestFields := by decide
    simp [h]
  · exact optField_names_allowed _ _ _ (by decide)
  · exact optField_names_allowed _ _ _ (by decide)
  · exact optField_names_allowed _ _ _ (by decide)
  · exact optField_names_allowed _ _ _ (by decide)
  · exact optField_names_allowed _ _ _ (by decide)
  · exact optField_names_allowed _ _ _ (by decide)
  · exact optField_names_allowed _ _ _ (by decide)
  · exact optField_names_allowed _ _ _ (by decide)

/-- C5: every chat request the client dispatches (streaming or not)
serializes to fields drawn only from
`{message, conversation_id, user_id, use_rag, stream, temperature,
max_tokens, token_limit, summarize_target_ratio}`, and the required
`message` field is always present. -/
theorem c5_request_shape (content : JSStr) (o : ChatInputOptions)
    (sessionId userId : JSStr) (currentSessionId : Option JSStr) :
    (requestFields (streamRequestOf (buildStreamRequest content o sessionId userId))).all
        (fun kv => allowedRequestFields.contains kv.1) = true
    ∧ (requestFields (buildSyncRequest content o currentSessionId userId)).all
        (fun kv => allowedRequestFields.contains kv.1) = true
    ∧ (requestFields (streamRequestOf (buildStreamRequest content o sessionId userId))).any
        (fun kv => kv.1 == ("message" : String)) = true
    ∧ (requestFields (buildSyncRequest content o currentSessionId userId)).any
        (fun kv => kv.1 == ("message" : String)) = true := by
  refine ⟨requestFields_names_allowed _, requestFields_names_allowed _, ?_, ?_⟩ <;>
    · unfold requestFields
      simp [List.any_append]

/-- C8: `streamMessage` forwards the caller's request with `stream` forced
to `true` and every other field unchanged, whatever `stream` the caller
passed. -/
theorem c8_streamRequest_frame (r : ChatRequest) :
    (streamRequestOf r).stream = some true
    ∧ (streamRequestOf r).message = r.message
    ∧ (streamRequestOf r).conversation_id = r.conversation_id
    ∧ (streamRequestOf r).user_id = r.user_id
    ∧ (streamRequestOf r).use_rag = r.use_rag
    ∧ (streamRequestOf r).temperature = r.temperature
    ∧ (streamRequestOf r).max_tokens = r.max_tokens
    ∧ (streamRequestOf r).token_limit = r.token_limit
    ∧ (streamRequestOf r).summarize_target_ratio = r.summarize_target_ratio :=
  ⟨rfl, rfl, rfl, rfl, rfl, rfl, rfl, rfl, rfl⟩

/-! Trim lemmas. -/

theorem dropWhile_idem (p : Char → Bool) : ∀ l : List Char,
    List.dropWhile p (List.dropWhile p l) = List.dropWhile p l
  | [] => rfl
  | c :: cs => by
    by_cases h : p c
    · simp [List.dropWhile_cons, h, dropWhile_idem p cs]
    · simp [List.dropWhile_cons, h]

theorem dropWhile_suffix_exists (p : Char → Bool) : ∀ l : List Char,
    ∃ u, l = u ++ List.dropWhile p l
  | [] => ⟨[], rfl⟩
  | c :: cs => by
    by_cases h : p c
    · obtain ⟨u, hu⟩ := dropWhile_suffix_exists p cs
      exact ⟨c :: u, by simp [List.dropWhile_cons, h]; exact hu⟩
    · exact ⟨[], by simp [List.dropWhile_cons, h]⟩

theorem dropWhile_head_false (p : Char → Bool) : ∀ l : List Char,
    List.dropWhile p l = []
    ∨ ∃ c cs, List.dropWhile p l = c :: cs ∧ p c = false
  | [] => Or.inl rfl
  | c :: cs => by
    by_cases h : p c
    · simpa [List.dropWhile_cons, h] using dropWhile_head_false p cs
    · exact Or.inr ⟨c, cs, by simp [List.dropWhile_cons, h], by simp [h]⟩

theorem jsTrim_idem (s : JSStr) : jsTrim (jsTrim s) = jsTrim s := by
  have hTr : (jsTrim s).reverse = (s.dropWhile jsWhite).reverse.dropWhile jsWhite := by
    unfold jsTrim
    rw [List.reverse_reverse]
  have hstepB : (jsTrim s).reverse.dropWhile jsWhite = (jsTrim s).reverse := by
    rw [hTr, dropWhile_idem]
  have hstepA : (jsTrim s).dropWhile jsWhite = jsTrim s := by
    obtain ⟨u, hu⟩ := dropWhile_suffix_exists jsWhite (s.dropWhile jsWhite).reverse
    rw [← hTr] at hu
    have hLrep : s.dropWhile jsWhite = jsTrim s ++ u.reverse := by
      have h1 := congrArg List.reverse hu
      rw [List.reverse_reverse, List.reverse_append, List.reverse_reverse] at h1
      exact h1
    cases hTc : jsTrim s with
    | nil => rfl
    | cons t ts =>
      rw [hTc] at hLrep
      rcases dropWhile_head_false jsWhite s with hnil | ⟨c, cs, hcc, hpc⟩
      · rw [hnil] at hLrep
        simp at hLrep
      · rw [hcc, List.cons_append] at hLrep
        have hct : c = t ∧ cs = ts ++ u.reverse :=
          (List.cons.injEq c cs t (ts ++ u.reverse)) ▸ hLrep
        have hpt : jsWhite t = false := hct.1 ▸ hpc
        rw [List.dropWhile_cons, hpt]
        simp
  calc jsTrim (jsTrim s)
      = (((jsTrim s).dropWhile jsWhite).reverse.dropWhile jsWhite).reverse := rfl
    _ = ((jsTrim s).reverse.dropWhile jsWhite).reverse := by rw [hstepA]
    _ = (jsTrim s).reverse.reverse := by rw [hstepB]
    _ = jsTrim s := List.reverse_reverse _

/-- C9: the client dispatches a chat request exactly when the trimmed input
is nonempty (and the input is neither disabled nor loading), and the
`message` field of every dispatched request is the trimmed input; the
`sendMessage` guard alone also never lets a blank message through. -/
theorem c9_only_trimmed_nonblank_messages (input : JSStr)
    (disabled isLoading : Bool) (o : ChatInputOptions) (sessionId : JSStr)
    (currentSessionId : Option JSStr) (userId : JSStr) :
    (dispatchedRequest input disabled isLoading o sessionId currentSessionId
        userId).map ChatRequest.message
      = (if jsTrim input ≠ [] ∧ disabled = false ∧ isLoading = false
         then some (jsTrim input) else none)
    ∧ ∀ content : JSStr,
        (sendMessageRequest content o sessionId currentSessionId userId).map
            ChatRequest.message
          = (if jsTrim content = [] then none else some (jsTrim content)) := by
  have hmsg : ∀ content : JSStr,
      (sendMessageRequest content o sessionId currentSessionId userId).map
          ChatRequest.message
        = (if jsTrim content = [] then none else some (jsTrim content)) := by
    intro content
    unfold sendMessageRequest
    by_cases hg : jsTrim content = []
    · rw [if_pos hg, if_pos hg]
      rfl
    · rw [if_neg hg, if_neg hg]
      cases o.stream <;>
        simp [streamRequestOf, buildStreamRequest, buildSyncRequest]
  refine ⟨?_, hmsg⟩
  unfold dispatchedRequest handleSubmit
  by_cases hc : jsTrim input ≠ [] ∧ disabled = false ∧ isLoading = false
  · rw [if_pos hc]
    rw [Option.some_bind, hmsg (jsTrim input), jsTrim_idem, if_neg hc.1]
  · rw [if_neg hc]
    rfl

/-- C10: `safeRenderWithFallback` returns `String(value)` exactly for
string, number and boolean values and the fallback for every other value
(`null`, `undefined`, objects, arrays, functions); it is a total function,
so it never throws. -/
theorem c10_safeRenderWithFallback_cases (value : JSValue) (fallback : JSStr) :
    safeRenderWithFallback value fallback
      = (if isRenderablePrim value then jsString value else fallback) := by
  cases value <;> rfl

/-- C4: the health response the client consumes carries the
`{status, missing_components, chat_model?, embedder?, vector_db?}` fields,
its status is always `ready` or `not_ready`, and a reader recovers the
active pipeline strategy (full or baseline) from the response. -/
theorem c4_health_determines_strategy (p : PipelineComponents) :
    strategyFromHealth (healthResponseOf p) = activeStrategy p
    ∧ ((healthResponseOf p).status = ("ready").toList
        ∨ (healthResponseOf p).status = ("not_ready").toList)
    ∧ (healthResponseOf p).missing_components = missingComponents p
    ∧ (healthResponseOf p).chat_model = p.chat_model
    ∧ (healthResponseOf p).embedder = p.embedder
    ∧ (healthResponseOf p).vector_db = p.vector_db := by
  by_cases h : missingComponents p = []
  · refine ⟨?_, Or.inl ?_, rfl, rfl, rfl, rfl⟩ <;>
      simp [strategyFromHealth, healthResponseOf, activeStrategy, h]
  · have hne : ¬ (("not_ready").toList = ("ready").toList) := by decide
    refine ⟨?_, Or.inr ?_, rfl, rfl, rfl, rfl⟩ <;>
      simp [strategyFromHealth, healthResponseOf, activeStrategy, h, hne]

/-- C6: deleting a conversation is idempotent: one delete leaves the store
without the conversation, a second delete of the same id changes nothing
and reports `notFound` instead of failing — so deleting a missing id is a
`notFound` response, not an error. -/
theorem c6_delete_idempotent (store : List Conversation) (cid : JSStr) :
    (deleteConversation store cid).1
      = store.filter (fun c => !(c.conversation_id == cid))
    ∧ deleteConversation (deleteConversation store cid).1 cid
      = ((deleteConversation store cid).1, DeleteOutcome.notFound) := by
  have hfilter_none : (store.filter (fun c => !(c.conversation_id == cid))).any
      (fun c => c.conversation_id == cid) = false := by
    cases hb : (store.filter (fun c => !(c.conversation_id == cid))).any
        (fun c => c.conversation_id == cid)
    · rfl
    · rw [List.any_eq_true] at hb
      obtain ⟨x, hx, hpx⟩ := hb
      rw [List.mem_filter, hpx] at hx
      simp at hx
  have hfst : (deleteConversation store cid).1
      = store.filter (fun c => !(c.conversation_id == cid)) := by
    unfold deleteConversation
    by_cases h : store.any (fun c => c.conversation_id == cid) = true
    · rw [if_pos h]
    · rw [if_neg h]
      have h2 : store.any (fun c => c.conversation_id == cid) = false := by
        cases hb : store.any (fun c => c.conversation_id == cid)
        · rfl
        · exact absurd hb h
      rw [List.any_eq_false] at h2
      show store = _
      symm
      rw [List.filter_eq_self]
      intro a ha
      simp [h2 a ha]
  refine ⟨hfst, ?_⟩
  rw [hfst]
  unfold deleteConversation
  rw [if_neg (by rw [hfilter_none]; exact Bool.false_ne_true)]

/-- C3: for every vector-store backend (arbitrary native metric and
backend-specific normalization), `search` returns results sorted by
descending normalized score with ties broken by ascending `chunk_id`, and
every returned normalized score lies in `[0,1]`. -/
theorem c3_search_sorted_and_unit_scores (rawScore : List ℚ → List ℚ → ℚ)
    (toUnit : ℚ → ℚ) (entries : List VSEntry) (queryEmbedding : List ℚ)
    (topK : ℕ) (threshold : ℚ) :
    (vsSearch rawScore toUnit entries queryEmbedding topK threshold).Pairwise
        resultRank
    ∧ (vsSearch rawScore toUnit entries queryEmbedding topK threshold).all
        (fun r => decide (0 ≤ r.score) && decide (r.score ≤ 1)) = true := by
  constructor
  · exact List.Pairwise.sublist (List.take_sublist _ _)
      (List.sorted_insertionSort resultRank _)
  · rw [List.all_eq_true]
    intro r hr
    unfold vsSearch at hr
    have h1 := List.mem_of_mem_take hr
    have h2 := (List.perm_insertionSort resultRank _).mem_iff.mp h1
    have h3 := (List.mem_filter.mp h2).1
    obtain ⟨e, _, heq⟩ := List.mem_map.mp h3
    rw [Bool.and_eq_true, decide_eq_true_eq, decide_eq_true_eq]
    rw [← heq]
    exact ⟨le_max_left 0 _, max_le (by norm_num) (min_le_left 1 _)⟩
